import Mathlib

/-!
# Verification of the `brain` MCP server core

Shallow embedding of the relevance search engine (`src/mcp/server/src/search.rs`),
the content-retrieval collaborator (`src/mcp/server/src/content.rs`) and the
protocol dispatcher / transport loop (`src/mcp/server/src/main.rs`), together
with proofs of the specified properties.
-/

namespace Brain

/-! ## Configuration (`config.rs`) -/

/-- `KnowledgeConfig` from `config.rs`: knowledge-base root and result cap. -/
structure KnowledgeConfig where
  root_path : String
  max_files : Nat
deriving Repr, DecidableEq

/-- `McpConfig` from `config.rs`. -/
structure McpConfig where
  server_name : String
deriving Repr, DecidableEq

/-- `Config` from `config.rs` (the `ollama` section is unused by the server core). -/
structure Config where
  knowledge : KnowledgeConfig
  mcp : McpConfig
deriving Repr, DecidableEq

/-! ## Pattern matching model

Each keyword is escaped (`regex::escape`) and compiled with the `(?i)` flag, so a
compiled pattern matches the keyword as a case-insensitive literal.  `find_iter`
enumerates leftmost, non-overlapping matches; for a literal pattern that is the
greedy left-to-right scan modelled by `countOcc`.  An empty keyword compiles to
the empty regex, which matches once at every character boundary. -/

/-- Count non-overlapping occurrences of the non-empty literal `pat` in `text`,
scanning left to right and resuming after the end of each match (the semantics
of `Regex::find_iter().count()` for a non-empty literal pattern).  `skip` is
the number of leading characters still covered by the previous match, so a
fresh match is only attempted when `skip = 0`. -/
def countOcc (pat : List Char) : List Char → Nat → Nat
  | [], _ => 0
  | _ :: rest, skip + 1 => countOcc pat rest skip
  | t :: rest, 0 =>
    if pat.isPrefixOf (t :: rest) then 1 + countOcc pat rest (pat.length - 1)
    else countOcc pat rest 0

/-- Number of case-insensitive literal matches of keyword `pat` in `text`:
the model of `pattern.find_iter(&content).count()` for the compiled pattern
`(?i)regex::escape(pat)`.  The empty keyword compiles to the empty regex,
which matches once at every character boundary; case-insensitivity is
modelled by lowering both sides character-wise. -/
def countMatches (pat text : String) : Nat :=
  if pat = "" then text.length + 1
  else countOcc (pat.data.map Char.toLower) (text.data.map Char.toLower) 0

/-! ## Path extension model

`e.path().extension()` (Rust `std::path::Path::extension`): the portion of the
final path component after its last `.`; `none` when there is no `.`, or when
the file name starts with `.` and has no other `.`.  The comparison
`ext == "org"` in the source is byte-exact, hence case-sensitive. -/

/-- Split a character list at every occurrence of `sep` (the pieces, in
order, without the separators; always non-empty). -/
def splitChars (sep : Char) : List Char → List (List Char)
  | [] => [[]]
  | c :: rest =>
    let r := splitChars sep rest
    if c = sep then [] :: r
    else (c :: r.headD []) :: r.tail

/-- Final component of a `/`-separated path (`Path::file_name`). -/
def fileName (p : String) : List Char :=
  (splitChars '/' p.data).getLastD []

/-- `Path::extension` on the model path: the portion of the file name after
its last `.`; `none` when the name has no `.`, or starts with its only `.`. -/
def extension (p : String) : Option String :=
  match splitChars '.' (fileName p) with
  | [] => none
  | [_] => none
  | [[], _] => none
  | parts => some (String.mk (parts.getLastD []))

/-! ## Filesystem model for the walk

`WalkDir::new(root)` yields a stream of items, each either an error (dropped by
`filter_map(|e| e.ok())`) or an entry with a path; reading an entry's path with
`fs::read_to_string` either yields its text or fails (`content = none`). -/

/-- One item of the recursive directory walk. -/
inductive WalkItem where
  /-- A walk error (permission failure etc.), dropped by `.ok()`. -/
  | err
  /-- An entry at `path`; `content = none` models a `read_to_string` failure. -/
  | entry (path : String) (content : Option String)
deriving Repr, DecidableEq

/-- The filesystem as seen by `search_files`: whether the configured root
exists, and the stream of walk items produced under it. -/
structure Fs where
  rootExists : Bool
  walk : List WalkItem
deriving Repr, DecidableEq

/-- `WalkItem → Option (path, content)`, the model of `filter_map(|e| e.ok())`. -/
def WalkItem.ok : WalkItem → Option (String × Option String)
  | .err => none
  | .entry p c => some (p, c)

/-! ## Search engine (`search.rs`) -/

/-- `SearchResult` from `search.rs`.  `relevance` is an `f64` in the source but
always holds an exact non-negative integer count (a sum of `usize` match
counts), so it is modelled as `Nat`. -/
structure SearchResult where
  path : String
  relevance : Nat
deriving Repr, DecidableEq

/-- The per-file scoring loop of `search_files`:
`for pattern in &patterns { let matches = ...count(); if matches > 0 { score += matches } }`. -/
def fileScore (keywords : List String) (content : String) : Nat :=
  keywords.foldl (fun score pat =>
    let numMatches := countMatches pat content
    if numMatches > 0 then score + numMatches else score) 0

/-- The `files` collection of `search_files`: walk items surviving
`filter_map(|e| e.ok())` and the `.org` extension filter
(`extension().map_or(false, |ext| ext == "org")`). -/
def orgFiles (fs : Fs) : List (String × Option String) :=
  (fs.walk.filterMap WalkItem.ok).filter
    (fun e => ((extension e.1).map (fun ext => ext == "org")).getD false)

/-- The `results` collection of `search_files`: each candidate is read
(`read_to_string`, dropping failures), scored, and dropped when its score is
zero.  The parallel `par_iter().filter_map().collect()` preserves input order,
so it is an order-preserving `filterMap`. -/
def scoredFiles (fs : Fs) (keywords : List String) : List (String × Nat) :=
  (orgFiles fs).filterMap (fun e =>
    match e.2 with
    | some content =>
      let score := fileScore keywords content
      if score > 0 then some (e.1, score) else none
    | none => none)

/-- The regex crate's default compiled-program size limit, 10 MiB. -/
def regexSizeLimit : Nat := 10 * 1048576

/-- Model of `Regex::new(&format!(r"(?i){}", regex::escape(k)))`: escaping
rules out syntax errors, but compilation still fails (`CompiledTooBig`) when
the compiled program exceeds the crate's size limit, which an oversized
keyword triggers; the compiled-program size is modelled as the keyword's
length.  On success the compiled pattern matches `k` as a case-insensitive
literal, so the pattern is represented by the keyword itself. -/
def compilePattern (k : String) : Except String String :=
  if regexSizeLimit < k.length then
    .error ("Compiled regex exceeds size limit of "
      ++ toString regexSizeLimit ++ " bytes.")
  else
    .ok k

/-- `keywords.iter().map(|k| Regex::new(..)).collect::<Result<Vec<_>, _>>()`:
all compiled patterns, or the first compilation error (propagated by `?`). -/
def compilePatterns : List String → Except String (List String)
  | [] => .ok []
  | k :: rest =>
    match compilePattern k with
    | .error e => .error e
    | .ok p =>
      match compilePatterns rest with
      | .error e => .error e
      | .ok ps => .ok (p :: ps)

/-- `search_files` from `search.rs`.  Fails (anyhow error) when the root does
not exist or when any keyword fails to compile (the `?` on the collected
`Regex::new` results).  Scored results are sorted by relevance descending (a
stable sort, as `sort_by`), truncated to `max_files` and converted to
`SearchResult`. -/
def search_files (config : Config) (fs : Fs) (keywords : List String) :
    Except String (List SearchResult) :=
  if fs.rootExists = false then
    .error ("Knowledge base path does not exist: " ++ config.knowledge.root_path)
  else
    match compilePatterns keywords with
    | .error e => .error e
    | .ok patterns =>
      let sorted_results := (scoredFiles fs patterns).mergeSort (fun a b => b.2 ≤ a.2)
      .ok ((sorted_results.take config.knowledge.max_files).map
        (fun pc => { path := pc.1, relevance := pc.2 }))

/-! ## JSON values (`serde_json::Value`) -/

/-- `serde_json::Value`.  Numbers are modelled as integers (the only numbers
the dispatcher produces or inspects are ids and error codes). -/
inductive Json where
  | null
  | bool (b : Bool)
  | num (n : Int)
  | str (s : String)
  | arr (elems : List Json)
  | obj (fields : List (String × Json))
deriving Repr

/-- `Value::get(key)` on an object; `None` on any other value. -/
def Json.get? : Json → String → Option Json
  | .obj fields, key => (fields.find? (fun f => f.1 == key)).map (·.2)
  | _, _ => none

/-- `Value::as_str()`. -/
def Json.asStr? : Json → Option String
  | .str s => some s
  | _ => none

/-- `Value::as_array()`. -/
def Json.asArr? : Json → Option (List Json)
  | .arr elems => some elems
  | _ => none

/-! ## Content retrieval (`content.rs`) -/

/-- What the filesystem holds at one path, as seen by `get_contents`:
the path may not exist, may exist but fail to read, or read to text. -/
inductive FileState where
  | absent
  | unreadable (errMsg : String)
  | text (s : String)
deriving Repr, DecidableEq

/-- The filesystem seen by `get_contents`: an association of paths to states;
paths not listed are absent. -/
def ContentFs := List (String × FileState)

/-- State of one path: `Path::exists` plus `fs::read_to_string`. -/
def ContentFs.stateOf (fs : ContentFs) (p : String) : FileState :=
  match fs.find? (fun e => e.1 == p) with
  | some e => e.2
  | none => .absent

/-- The string stored in the payload map for one requested path: its text, a
per-path read-error message, or the not-found marker (the three `insert` arms
of the loop in `get_contents`). -/
def contentValue (fs : ContentFs) (p : String) : String :=
  match fs.stateOf p with
  | .text s => s
  | .unreadable e => "Error reading file: " ++ e
  | .absent => "File not found"

/-- Insert into the payload map with `HashMap::insert` semantics: the key ends
up bound to the new value, and occurs once. -/
def insertPayload (m : List (String × String)) (key val : String) :
    List (String × String) :=
  if m.any (fun e => e.1 == key) then
    m.map (fun e => if e.1 == key then (key, val) else e)
  else
    m ++ [(key, val)]

/-- The `HashMap` built by the loop in `get_contents`, as an association list
with unique keys. -/
def get_contents_map (fs : ContentFs) (file_paths : List String) :
    List (String × String) :=
  file_paths.foldl (fun m path => insertPayload m path (contentValue fs path)) []

/-- A rendering of the payload map, standing for
`serde_json::to_string_pretty(&contents)`. -/
def renderContents (m : List (String × String)) : String :=
  "\x7b" ++ String.intercalate ", "
    (m.map (fun e => "\x22" ++ e.1 ++ "\x22: \x22" ++ e.2 ++ "\x22")) ++ "\x7d"

/-- `get_contents` from `content.rs`: builds the path→content map and
serializes it.  Serializing a map of strings cannot fail, so the result is
always `Ok`. -/
def get_contents (fs : ContentFs) (file_paths : List String) :
    Except String String :=
  .ok (renderContents (get_contents_map fs file_paths))

/-! ## Protocol dispatcher (`main.rs`) -/

/-- `McpRequest`. -/
structure McpRequest where
  jsonrpc : String
  id : Json
  method : String
  params : Json

/-- `McpResponse`. -/
structure McpResponse where
  jsonrpc : String
  id : Json
  result : Json

/-- `McpErrorDetail`. -/
structure McpErrorDetail where
  code : Int
  message : String

/-- `McpError`. -/
structure McpError where
  jsonrpc : String
  id : Json
  error : McpErrorDetail

/-- The `input_schema` literal registered for `search_files`. -/
def searchFilesSchema : Json :=
  .obj [("type", .str "object"),
        ("properties", .obj [("keywords",
          .obj [("type", .str "array"),
                ("items", .obj [("type", .str "string")]),
                ("description", .str "Keywords to search for in files")])]),
        ("required", .arr [.str "keywords"])]

/-- The `input_schema` literal registered for `get_contents`. -/
def getContentsSchema : Json :=
  .obj [("type", .str "object"),
        ("properties", .obj [("file_paths",
          .obj [("type", .str "array"),
                ("items", .obj [("type", .str "string")]),
                ("description", .str "Paths of files to retrieve contents from")])]),
        ("required", .arr [.str "file_paths"])]

/-- A `Tool` descriptor. -/
structure Tool where
  name : String
  description : String
  input_schema : Json

/-- The fixed catalog built by `register_tools`. -/
def registeredTools : List Tool :=
  [{ name := "search_files",
     description := "Search for relevant files based on keywords",
     input_schema := searchFilesSchema },
   { name := "get_contents",
     description := "Get contents of specified files",
     input_schema := getContentsSchema }]

/-- The world the server operates over: the walkable knowledge base for
search and the flat filesystem for content retrieval. -/
structure World where
  searchFs : Fs
  contentFs : ContentFs

/-- A rendering of the ranked result list, standing for
`serde_json::to_string_pretty(&results)`. -/
def renderResults (results : List SearchResult) : String :=
  "[" ++ String.intercalate ", "
    (results.map (fun r =>
      "\x7b \x22path\x22: \x22" ++ r.path ++ "\x22, \x22relevance\x22: "
        ++ toString r.relevance ++ " \x7d")) ++ "]"

/-- The `json!` content envelope wrapping a textual payload as the single
`{type: "text", text: payload}` content item. -/
def textContent (payload : String) : Json :=
  .obj [("content", .arr [.obj [("type", .str "text"), ("text", .str payload)]])]

/-- `BrainServer::handle_request`: routes `list_tools` / `call_tool`, validates
the specific fields each tool needs, runs the domain operation, and shapes the
response or error exactly as the nested control flow in `main.rs` does (all
fall-through paths of `call_tool` reach the `-32602` error). -/
def handle_request (config : Config) (w : World) (request : McpRequest) :
    Except McpError McpResponse :=
  match request.method with
  | "list_tools" =>
    .ok { jsonrpc := "2.0", id := request.id,
          result := .obj [("tools", .arr (registeredTools.map (fun tool =>
            .obj [("name", .str tool.name),
                  ("description", .str tool.description),
                  ("input_schema", tool.input_schema)])))] }
  | "call_tool" =>
    match (request.params.get? "name").bind Json.asStr? with
    | some "search_files" =>
      match request.params.get? "arguments" with
      | some args =>
        match (args.get? "keywords").bind Json.asArr? with
        | some kws =>
          let keywords : List String := kws.filterMap Json.asStr?
          match search_files config w.searchFs keywords with
          | .ok results =>
            .ok { jsonrpc := "2.0", id := request.id,
                  result := textContent (renderResults results) }
          | .error e =>
            .error { jsonrpc := "2.0", id := request.id,
                     error := { code := -32603, message := "Internal error: " ++ e } }
        | none =>
          .error { jsonrpc := "2.0", id := request.id,
                   error := { code := -32602, message := "Invalid parameters" } }
      | none =>
        .error { jsonrpc := "2.0", id := request.id,
                 error := { code := -32602, message := "Invalid parameters" } }
    | some "get_contents" =>
      match request.params.get? "arguments" with
      | some args =>
        match (args.get? "file_paths").bind Json.asArr? with
        | some paths =>
          let file_paths : List String := paths.filterMap Json.asStr?
          match get_contents w.contentFs file_paths with
          | .ok contents =>
            .ok { jsonrpc := "2.0", id := request.id,
                  result := textContent contents }
          | .error e =>
            .error { jsonrpc := "2.0", id := request.id,
                     error := { code := -32603, message := "Internal error: " ++ e } }
        | none =>
          .error { jsonrpc := "2.0", id := request.id,
                   error := { code := -32602, message := "Invalid parameters" } }
      | none =>
        .error { jsonrpc := "2.0", id := request.id,
                 error := { code := -32602, message := "Invalid parameters" } }
    | _ =>
      .error { jsonrpc := "2.0", id := request.id,
               error := { code := -32602, message := "Invalid parameters" } }
  | _ =>
    .error { jsonrpc := "2.0", id := request.id,
             error := { code := -32601, message := "Method not found" } }

/-! ## Transport loop (`main` in `main.rs`) -/

/-- One input line, already decoded: either `serde_json::from_str` failed on
it, or it decoded to a request envelope. -/
inductive InLine where
  | malformed (parseMsg : String)
  | request (r : McpRequest)

/-- One line written to standard output, as the JSON envelope it serializes. -/
def OutMsg := Json

/-- Serialize a success envelope. -/
def responseJson (r : McpResponse) : Json :=
  .obj [("jsonrpc", .str r.jsonrpc), ("id", r.id), ("result", r.result)]

/-- Serialize an error envelope. -/
def errorJson (e : McpError) : Json :=
  .obj [("jsonrpc", .str e.jsonrpc), ("id", e.id),
        ("error", .obj [("code", .num e.error.code), ("message", .str e.error.message)])]

/-- The body of the `for line in stdin.lines()` loop: a malformed line writes
the `-32700` envelope with a null id; a decoded request is dispatched and its
success or error envelope written. -/
def processLine (config : Config) (w : World) : InLine → OutMsg
  | .malformed parseMsg =>
    .obj [("jsonrpc", .str "2.0"), ("id", .null),
          ("error", .obj [("code", .num (-32700)),
                          ("message", .str ("Parse error: " ++ parseMsg))])]
  | .request r =>
    match handle_request config w r with
    | .ok response => responseJson response
    | .error e => errorJson e

/-- The transport loop over the whole input stream: one response line per
input line, in order, the loop never terminating early on a bad line. -/
def transportLoop (config : Config) (w : World) (input : List InLine) :
    List OutMsg :=
  input.map (processLine config w)

/-- The id carried by a dispatcher outcome (success or error envelope). -/
def envelopeId : Except McpError McpResponse → Json
  | .ok r => r.id
  | .error e => e.id

/-- The protocol version tag carried by a dispatcher outcome. -/
def envelopeVersion : Except McpError McpResponse → String
  | .ok r => r.jsonrpc
  | .error e => e.jsonrpc

/-! ## Helper lemmas -/

theorem fileScore_foldl (keywords : List String) (content : String) (acc : Nat) :
    keywords.foldl (fun score pat =>
      let numMatches := countMatches pat content
      if numMatches > 0 then score + numMatches else score) acc
    = acc + (keywords.map (fun k => countMatches k content)).sum := by
  induction keywords generalizing acc with
  | nil => simp
  | cons k ks ih =>
    simp only [List.foldl_cons, List.map_cons, List.sum_cons]
    rw [ih]
    by_cases h : 0 < countMatches k content
    · simp only [h, if_pos]
      omega
    · simp only [Nat.not_lt, Nat.le_zero] at h
      simp [h]

/-- The scoring loop computes exactly the sum of the per-keyword match
counts (the `if matches > 0` guard only skips adding zeros). -/
theorem fileScore_eq_sum (keywords : List String) (content : String) :
    fileScore keywords content = (keywords.map (fun k => countMatches k content)).sum := by
  simpa using fileScore_foldl keywords content 0

/-- A successful compilation returns the keyword itself (the pattern is the
escaped keyword, matched as a case-insensitive literal). -/
theorem compilePattern_ok_shape {k p : String} (h : compilePattern k = .ok p) :
    p = k := by
  unfold compilePattern at h
  split at h
  · simp at h
  · injection h with h
    exact h.symm

/-- A successful batch compilation returns the keyword list itself. -/
theorem compilePatterns_ok_shape : ∀ {ks ps : List String},
    compilePatterns ks = .ok ps → ps = ks := by
  intro ks
  induction ks with
  | nil =>
    intro ps h
    injection h with h
    exact h.symm
  | cons k rest ih =>
    intro ps h
    simp only [compilePatterns] at h
    split at h
    · simp at h
    · rename_i p hp
      split at h
      · simp at h
      · rename_i ps2 hps
        injection h with h
        subst h
        rw [compilePattern_ok_shape hp, ih hps]

/-- Keywords within the size limit all compile, to themselves. -/
theorem compilePatterns_ok_of_le {ks : List String}
    (h : ∀ k ∈ ks, k.length ≤ regexSizeLimit) :
    compilePatterns ks = .ok ks := by
  induction ks with
  | nil => rfl
  | cons k rest ih =>
    have hk : compilePattern k = .ok k := by
      unfold compilePattern
      rw [if_neg (Nat.not_lt.mpr (h k (List.mem_cons_self k rest)))]
    simp only [compilePatterns, hk,
      ih (fun x hx => h x (List.mem_cons_of_mem k hx))]

/-- When the root exists and every keyword compiles, `search_files` succeeds
with the sorted, truncated, converted scored files. -/
theorem search_files_eq_ok {config : Config} {fs : Fs} (keywords : List String)
    (h : fs.rootExists = true)
    (hc : compilePatterns keywords = .ok keywords) :
    search_files config fs keywords =
      .ok ((((scoredFiles fs keywords).mergeSort (fun a b => b.2 ≤ a.2)).take
        config.knowledge.max_files).map (fun pc => { path := pc.1, relevance := pc.2 })) := by
  unfold search_files
  simp [h, hc]

/-- Inversion of a successful search: the root existed, every keyword
compiled (to itself), and the results are the sorted, truncated, converted
scored files. -/
theorem search_files_ok_inv {config : Config} {fs : Fs} {keywords : List String}
    {results : List SearchResult}
    (hok : search_files config fs keywords = .ok results) :
    fs.rootExists = true ∧ compilePatterns keywords = .ok keywords ∧
    results = (((scoredFiles fs keywords).mergeSort (fun a b => b.2 ≤ a.2)).take
      config.knowledge.max_files).map (fun pc => { path := pc.1, relevance := pc.2 }) := by
  unfold search_files at hok
  split at hok
  · simp at hok
  · rename_i hroot
    have hroot2 : fs.rootExists = true := by
      cases h : fs.rootExists with
      | false => exact absurd h hroot
      | true => rfl
    refine ⟨hroot2, ?_⟩
    split at hok
    · simp at hok
    · rename_i patterns hpat
      have hpk := compilePatterns_ok_shape hpat
      subst hpk
      injection hok with hok
      exact ⟨hpat, hok.symm⟩

/-- Membership in the scored list: the file came from a readable `.org` walk
entry and its score is positive. -/
theorem mem_scoredFiles {fs : Fs} {keywords : List String} {pc : String × Nat}
    (h : pc ∈ scoredFiles fs keywords) :
    ((extension pc.1).map (fun ext => ext == "org")).getD false = true ∧
    0 < pc.2 ∧
    ∃ content, WalkItem.entry pc.1 (some content) ∈ fs.walk ∧
      pc.2 = fileScore keywords content := by
  obtain ⟨e, he, hsome⟩ := List.mem_filterMap.mp h
  obtain ⟨hel, hext⟩ := List.mem_filter.mp he
  obtain ⟨item, hitem, hok⟩ := List.mem_filterMap.mp hel
  cases item with
  | err => simp [WalkItem.ok] at hok
  | entry p c =>
    simp only [WalkItem.ok, Option.some.injEq] at hok
    subst hok
    cases c with
    | none => simp at hsome
    | some content =>
      simp only [] at hsome
      split at hsome
      · simp only [Option.some.injEq] at hsome
        subst hsome
        refine ⟨hext, by assumption, content, hitem, rfl⟩
      · simp at hsome

/-! ## Concrete fixtures for the instantiations -/

/-- A concrete configuration: root `/kb`, at most 2 results. -/
def wConfig : Config :=
  { knowledge := { root_path := "/kb", max_files := 2 },
    mcp := { server_name := "brain-files" } }

/-- A concrete walk: the root directory (unreadable as a file), two matching
`.org` files, a walk error, a non-matching `.org` file, a matching `.txt`
file and an unreadable `.org` file. -/
def wFs : Fs :=
  { rootExists := true,
    walk := [.entry "/kb" none,
             .entry "/kb/a.org" (some "x Test x test"),
             .err,
             .entry "/kb/b.org" (some "a test"),
             .entry "/kb/c.org" (some "zzz"),
             .entry "/kb/d.txt" (some "test test test"),
             .entry "/kb/e.org" none] }

/-! ## Claims -/

/-- Claim C1: for every file retained in the output of `search_files`, its
relevance equals the exact sum, over all keywords, of the count of
non-overlapping case-insensitive literal matches of that keyword in the
file's text, and every retained relevance is strictly greater than 0. -/
theorem c1_retained_relevance_exact_sum {config : Config} {fs : Fs}
    {keywords : List String} {results : List SearchResult} {r : SearchResult}
    (hok : search_files config fs keywords = .ok results) (hr : r ∈ results) :
    0 < r.relevance ∧
    ∃ content, WalkItem.entry r.path (some content) ∈ fs.walk ∧
      r.relevance = (keywords.map (fun k => countMatches k content)).sum := by
  obtain ⟨hroot, hcomp, hres⟩ := search_files_ok_inv hok
  subst hres
  obtain ⟨pc, hpc, rfl⟩ := List.mem_map.mp hr
  have h2 : pc ∈ scoredFiles fs keywords :=
    List.mem_mergeSort.mp (List.mem_of_mem_take hpc)
  obtain ⟨_, hpos, content, hmem, hsc⟩ := mem_scoredFiles h2
  exact ⟨hpos, content, hmem, by rw [← fileScore_eq_sum]; exact hsc⟩

unseal List.merge List.mergeSort in
/-- Concrete instantiation of C1: the file `/kb/a.org`, retained with
relevance 2 for the keyword `test`, matches it twice case-insensitively. -/
theorem c1_retained_relevance_exact_sum_witness :
    0 < (⟨"/kb/a.org", 2⟩ : SearchResult).relevance ∧
    ∃ content,
      WalkItem.entry (SearchResult.path ⟨"/kb/a.org", 2⟩) (some content) ∈ wFs.walk ∧
      SearchResult.relevance ⟨"/kb/a.org", 2⟩
        = ((["test"]).map (fun k => countMatches k content)).sum :=
  @c1_retained_relevance_exact_sum wConfig wFs ["test"]
    [⟨"/kb/a.org", 2⟩, ⟨"/kb/b.org", 1⟩] ⟨"/kb/a.org", 2⟩ (by rfl) (by decide)

/-- Claim C2: every successful `search_files` call returns at most
`max_files` results, and the relevance scores are non-increasing from the
first element to the last. -/
theorem c2_results_bounded_and_sorted {config : Config} {fs : Fs}
    {keywords : List String} {results : List SearchResult}
    (hok : search_files config fs keywords = .ok results) :
    results.length ≤ config.knowledge.max_files ∧
    results.Pairwise (fun a b => b.relevance ≤ a.relevance) := by
  obtain ⟨hroot, hcomp, hres⟩ := search_files_ok_inv hok
  subst hres
  constructor
  · simp only [List.length_map, List.length_take]
    omega
  · have htrans : ∀ a b c : String × Nat,
        decide (b.2 ≤ a.2) = true → decide (c.2 ≤ b.2) = true →
        decide (c.2 ≤ a.2) = true := by
      intro a b c h1 h2
      simp only [decide_eq_true_eq] at *
      omega
    have htotal : ∀ a b : String × Nat,
        (decide (b.2 ≤ a.2) || decide (a.2 ≤ b.2)) = true := by
      intro a b
      simp only [Bool.or_eq_true, decide_eq_true_eq]
      omega
    have hs := List.sorted_mergeSort htrans htotal (scoredFiles fs keywords)
    refine List.Pairwise.map _ (fun a b hab => ?_)
      (List.Pairwise.sublist (List.take_sublist _ _) hs)
    exact of_decide_eq_true hab

unseal List.merge List.mergeSort in
/-- Concrete instantiation of C2 at the two-file corpus with `max_files = 2`. -/
theorem c2_results_bounded_and_sorted_witness :
    ([⟨"/kb/a.org", 2⟩, ⟨"/kb/b.org", 1⟩] : List SearchResult).length
        ≤ wConfig.knowledge.max_files ∧
    ([⟨"/kb/a.org", 2⟩, ⟨"/kb/b.org", 1⟩] : List SearchResult).Pairwise
      (fun a b => b.relevance ≤ a.relevance) :=
  @c2_results_bounded_and_sorted wConfig wFs ["test"]
    [⟨"/kb/a.org", 2⟩, ⟨"/kb/b.org", 1⟩] (by rfl)

/-- Every dispatcher outcome echoes the request id: each constructor in
`handle_request` copies `request.id` into the envelope. -/
theorem handle_request_id (config : Config) (w : World) (r : McpRequest) :
    envelopeId (handle_request config w r) = r.id := by
  unfold handle_request
  repeat' split
  all_goals try rfl
  all_goals (simp only []; repeat' split)
  all_goals rfl

/-- Every dispatcher outcome carries protocol version "2.0". -/
theorem handle_request_version (config : Config) (w : World) (r : McpRequest) :
    envelopeVersion (handle_request config w r) = "2.0" := by
  unfold handle_request
  repeat' split
  all_goals try rfl
  all_goals (simp only []; repeat' split)
  all_goals rfl

/-- Claim C3: a `call_tool` request whose tool name is not one of the two
registered tools, or whose `search_files` arguments lack a keywords array,
yields an InvalidParams error with code -32602 echoing the request id — for
every filesystem, so no search and no filesystem access can have occurred. -/
theorem c3_invalid_tool_or_args {config : Config} {w : World} {request : McpRequest}
    (hm : request.method = "call_tool")
    (hbad :
      (∀ s, (request.params.get? "name").bind Json.asStr? = some s →
        s ≠ "search_files" ∧ s ≠ "get_contents") ∨
      ((request.params.get? "name").bind Json.asStr? = some "search_files" ∧
        ∀ args, request.params.get? "arguments" = some args →
          (args.get? "keywords").bind Json.asArr? = none)) :
    handle_request config w request =
      .error { jsonrpc := "2.0", id := request.id,
               error := { code := -32602, message := "Invalid parameters" } } := by
  unfold handle_request
  split
  · simp_all
  · split
    · rename_i hname
      rcases hbad with hb | ⟨hname2, hkw⟩
      · exact absurd rfl (hb _ hname).1
      · split
        · rename_i args hargs
          have := hkw args hargs
          split
          · simp_all
          · rfl
        · rfl
    · rename_i hname
      rcases hbad with hb | ⟨hname2, hkw⟩
      · exact absurd rfl (hb _ hname).2
      · rw [hname] at hname2
        simp at hname2
    · rfl
  · simp_all

/-- Concrete instantiation of C3: tool name `bogus` yields InvalidParams with
the request id echoed, over the concrete world. -/
theorem c3_invalid_tool_or_args_witness :
    handle_request wConfig { searchFs := wFs, contentFs := [] }
      { jsonrpc := "2.0", id := .num 7, method := "call_tool",
        params := .obj [("name", .str "bogus")] } =
      .error { jsonrpc := "2.0", id := .num 7,
               error := { code := -32602, message := "Invalid parameters" } } :=
  @c3_invalid_tool_or_args wConfig { searchFs := wFs, contentFs := [] }
    { jsonrpc := "2.0", id := .num 7, method := "call_tool",
      params := .obj [("name", .str "bogus")] }
    rfl (Or.inl (fun s hs => by
      have h2 : some "bogus" = some s := hs
      cases h2
      exact ⟨by decide, by decide⟩))

/-- Claim C4: a line that fails to decode produces a ParseError (-32700)
response with a null id and the loop continues with the remaining lines
unaffected; a line that decodes to a request is answered with an envelope
echoing the caller-supplied id verbatim. -/
theorem c4_parse_error_recovery (config : Config) (w : World)
    (parseMsg : String) (rest : List InLine) (r : McpRequest) :
    transportLoop config w (.malformed parseMsg :: rest) =
      .obj [("jsonrpc", .str "2.0"), ("id", .null),
            ("error", .obj [("code", .num (-32700)),
                            ("message", .str ("Parse error: " ++ parseMsg))])]
        :: transportLoop config w rest ∧
    Json.get? (processLine config w (.request r)) "id" = some r.id := by
  refine ⟨rfl, ?_⟩
  have hid := handle_request_id config w r
  cases h : handle_request config w r with
  | ok resp =>
    rw [h] at hid
    simp only [envelopeId] at hid
    simp [processLine, h, responseJson, Json.get?, hid]
  | error e =>
    rw [h] at hid
    simp only [envelopeId] at hid
    simp [processLine, h, errorJson, Json.get?, hid]

/-- Claim C5: when the configured root does not exist, `search_files` fails
with the root-not-found error (so it produces no results), and a dispatched
`search_files` call surfaces that failure as InternalError -32603 rather
than crashing the server. -/
theorem c5_root_not_found {config : Config} {w : World} {request : McpRequest}
    {args : Json} {kws : List Json} (keywords : List String)
    (hroot : w.searchFs.rootExists = false)
    (hm : request.method = "call_tool")
    (hname : (request.params.get? "name").bind Json.asStr? = some "search_files")
    (hargs : request.params.get? "arguments" = some args)
    (hkw : (args.get? "keywords").bind Json.asArr? = some kws) :
    search_files config w.searchFs keywords =
      .error ("Knowledge base path does not exist: " ++ config.knowledge.root_path) ∧
    handle_request config w request =
      .error { jsonrpc := "2.0", id := request.id,
               error := { code := -32603,
                          message := "Internal error: " ++
                            ("Knowledge base path does not exist: "
                              ++ config.knowledge.root_path) } } := by
  have hsf : ∀ kw : List String, search_files config w.searchFs kw =
      .error ("Knowledge base path does not exist: " ++ config.knowledge.root_path) := by
    intro kw
    unfold search_files
    simp [hroot]
  refine ⟨hsf keywords, ?_⟩
  unfold handle_request
  split
  · simp_all
  · split
    · split
      · split
        · simp only [hsf]
        · simp_all
      · simp_all
    · simp_all
    · simp_all
  · simp_all

/-- The dispatcher world with a nonexistent knowledge-base root. -/
def wNoRoot : World :=
  { searchFs := { rootExists := false, walk := [] }, contentFs := [] }

/-- Concrete instantiation of C5: a well-formed search over a missing root
errors and surfaces as InternalError -32603. -/
theorem c5_root_not_found_witness :
    search_files wConfig wNoRoot.searchFs ["x"] =
      .error ("Knowledge base path does not exist: " ++ wConfig.knowledge.root_path) ∧
    handle_request wConfig wNoRoot
      { jsonrpc := "2.0", id := .num 9, method := "call_tool",
        params := .obj [("name", .str "search_files"),
                        ("arguments", .obj [("keywords", .arr [.str "x"])])] } =
      .error { jsonrpc := "2.0", id := .num 9,
               error := { code := -32603,
                          message := "Internal error: " ++
                            ("Knowledge base path does not exist: "
                              ++ wConfig.knowledge.root_path) } } :=
  @c5_root_not_found wConfig wNoRoot
    { jsonrpc := "2.0", id := .num 9, method := "call_tool",
      params := .obj [("name", .str "search_files"),
                      ("arguments", .obj [("keywords", .arr [.str "x"])])] }
    (.obj [("keywords", .arr [.str "x"])]) [.str "x"] ["x"]
    rfl rfl rfl rfl rfl

/-- A candidate in `orgFiles` is a (path, read outcome) pair coming from an
entry of the walk. -/
theorem mem_orgFiles_walk {fs : Fs} {e : String × Option String}
    (he : e ∈ orgFiles fs) : WalkItem.entry e.1 e.2 ∈ fs.walk := by
  obtain ⟨hel, _⟩ := List.mem_filter.mp he
  obtain ⟨item, hitem, hok⟩ := List.mem_filterMap.mp hel
  cases item with
  | err => simp [WalkItem.ok] at hok
  | entry p c =>
    simp only [WalkItem.ok, Option.some.injEq] at hok
    subst hok
    exact hitem

/-- Claim C6: every path in the result of a search has extension exactly
`.org` (so `.ORG` and other case variants are never retained), every
retained result was readable, and unreadable or erroring entries never
abort the search — whatever unreadable entries and walk errors the walk
contains, a search over an existing root with compiling keywords succeeds. -/
theorem c6_only_org_files {config : Config} {fs : Fs} {keywords : List String}
    (hroot : fs.rootExists = true)
    (hcomp : ∀ k ∈ keywords, k.length ≤ regexSizeLimit) :
    (∃ results, search_files config fs keywords = .ok results) ∧
    ∀ results, search_files config fs keywords = .ok results →
      ∀ r ∈ results, extension r.path = some "org" ∧
        ∃ content, WalkItem.entry r.path (some content) ∈ fs.walk := by
  refine ⟨⟨_, search_files_eq_ok keywords hroot (compilePatterns_ok_of_le hcomp)⟩, ?_⟩
  intro results hok r hr
  obtain ⟨_, _, hres⟩ := search_files_ok_inv hok
  subst hres
  obtain ⟨pc, hpc, rfl⟩ := List.mem_map.mp hr
  have h2 : pc ∈ scoredFiles fs keywords :=
    List.mem_mergeSort.mp (List.mem_of_mem_take hpc)
  obtain ⟨hext, _, content, hmem, _⟩ := mem_scoredFiles h2
  refine ⟨?_, content, hmem⟩
  cases hx : extension pc.1 with
  | none =>
    rw [hx] at hext
    simp at hext
  | some ext =>
    rw [hx] at hext
    simp only [Option.map_some', Option.getD_some, beq_iff_eq] at hext
    rw [hext]

unseal List.merge List.mergeSort in
/-- Concrete instantiation of C6 over the mixed corpus (which contains a
`.txt` match, an unreadable `.org` entry and a walk error). -/
theorem c6_only_org_files_witness :
    (∃ results, search_files wConfig wFs ["test"] = .ok results) ∧
    ∀ results, search_files wConfig wFs ["test"] = .ok results →
      ∀ r ∈ results, extension r.path = some "org" ∧
        ∃ content, WalkItem.entry r.path (some content) ∈ wFs.walk :=
  @c6_only_org_files wConfig wFs ["test"] rfl (by decide)

/-- A keyword one character over the regex compiled-size limit: it compiles
to `CompiledTooBig` in the source, `compilePattern`'s error in the model. -/
def bigKeyword : String := String.mk (List.replicate (regexSizeLimit + 1) 'a')

/-- A corpus whose root exists but which contains no files at all. -/
def wEmptyFs : Fs := { rootExists := true, walk := [] }

/-- A search over an existing root with a single oversized keyword aborts
with the pattern-compilation error. -/
theorem search_files_compile_error {config : Config} {fs : Fs} {k : String}
    (hroot : fs.rootExists = true) (h : regexSizeLimit < k.length) :
    search_files config fs [k] =
      .error ("Compiled regex exceeds size limit of "
        ++ toString regexSizeLimit ++ " bytes.") := by
  have hcp : compilePattern k =
      .error ("Compiled regex exceeds size limit of "
        ++ toString regexSizeLimit ++ " bytes.") := by
    unfold compilePattern
    rw [if_pos h]
  have hcps : compilePatterns [k] =
      .error ("Compiled regex exceeds size limit of "
        ++ toString regexSizeLimit ++ " bytes.") := by
    simp only [compilePatterns]
    rw [hcp]
  unfold search_files
  rw [hcps, if_neg (by simp [hroot])]

/-- Counterexample to claim C7 as stated: `bigKeyword` matches nowhere — the
corpus is empty — yet `search_files` aborts with the pattern-compilation
error instead of returning the empty result. -/
theorem c7_no_match_empty_counterexample :
    search_files wConfig wEmptyFs [bigKeyword] =
      .error ("Compiled regex exceeds size limit of "
        ++ toString regexSizeLimit ++ " bytes.") ∧
    search_files wConfig wEmptyFs [bigKeyword] ≠ .ok [] := by
  have hlen : regexSizeLimit < bigKeyword.length := by
    have h1 : bigKeyword.length = (List.replicate (regexSizeLimit + 1) 'a').length := rfl
    rw [List.length_replicate] at h1
    omega
  have hsf := @search_files_compile_error wConfig wEmptyFs bigKeyword rfl hlen
  refine ⟨hsf, ?_⟩
  rw [hsf]
  simp

/-- Claim C7, amended: a search whose keywords all compile (stay within the
regex size limit) returns an empty result when the keyword set is empty or
when its keywords match nowhere in the corpus. -/
theorem c7_no_match_empty {config : Config} {fs : Fs} {keywords : List String}
    (hroot : fs.rootExists = true)
    (hcomp : ∀ k ∈ keywords, k.length ≤ regexSizeLimit)
    (hnone : keywords = [] ∨
      ∀ p content, WalkItem.entry p (some content) ∈ fs.walk →
        ∀ k ∈ keywords, countMatches k content = 0) :
    search_files config fs keywords = .ok [] := by
  rw [search_files_eq_ok keywords hroot (compilePatterns_ok_of_le hcomp)]
  have hsc : scoredFiles fs keywords = [] := by
    rw [scoredFiles, List.filterMap_eq_nil_iff]
    intro e he
    cases hc : e.2 with
    | none => simp [hc]
    | some content =>
      have hzero : fileScore keywords content = 0 := by
        rw [fileScore_eq_sum]
        rcases hnone with rfl | hall
        · simp
        · apply List.sum_eq_zero
          intro x hx
          obtain ⟨k, hk, rfl⟩ := List.mem_map.mp hx
          have hmem := mem_orgFiles_walk he
          rw [hc] at hmem
          exact hall e.1 content hmem k hk
      simp [hc, hzero]
  simp [hsc]

/-- Concrete instantiation of C7: the keyword `qqq` matches nothing in the
corpus, so the search returns the empty result. -/
theorem c7_no_match_empty_witness :
    search_files wConfig wFs ["qqq"] = .ok [] :=
  @c7_no_match_empty wConfig wFs ["qqq"] rfl (by decide)
    (Or.inr (by
      intro p content hmem k hk
      simp only [List.mem_singleton] at hk
      subst hk
      simp only [wFs, List.mem_cons, List.not_mem_nil, or_false] at hmem
      rcases hmem with h | h | h | h | h | h | h <;> simp_all <;> decide))

/-- Replacing a present key's bindings lets a lookup of that key find the new
binding. -/
theorem find?_replace_of_any (m : List (String × String)) (key val : String)
    (hany : m.any (fun e => e.1 == key) = true) :
    (m.map (fun e => if e.1 == key then (key, val) else e)).find?
      (fun e => e.1 == key) = some (key, val) := by
  induction m with
  | nil => simp at hany
  | cons e rest ih =>
    rw [List.map_cons]
    by_cases he : (e.1 == key) = true
    · rw [if_pos he]
      exact List.find?_cons_of_pos _ (by simp)
    · rw [if_neg he]
      rw [@List.find?_cons_of_neg _ (fun e => e.1 == key) e _ he]
      apply ih
      rcases List.any_eq_true.mp hany with ⟨x, hx, hpx⟩
      rcases List.mem_cons.mp hx with rfl | hx'
      · exact absurd hpx he
      · exact List.any_eq_true.mpr ⟨x, hx', hpx⟩

/-- Replacing the bindings of `key` does not affect lookups of other keys. -/
theorem find?_replace_other (m : List (String × String)) (key val p : String)
    (hne : (key == p) = false) :
    (m.map (fun e => if e.1 == key then (key, val) else e)).find?
      (fun e => e.1 == p) = m.find? (fun e => e.1 == p) := by
  induction m with
  | nil => simp
  | cons e rest ih =>
    rw [List.map_cons]
    by_cases he : (e.1 == key) = true
    · have hekey : e.1 = key := by rwa [beq_iff_eq] at he
      have hep : (e.1 == p) = false := by rw [hekey]; exact hne
      rw [if_pos he, List.find?_cons_of_neg _ (by simp [hne]),
        List.find?_cons_of_neg _ (by simp [hep])]
      exact ih
    · rw [if_neg he]
      by_cases hp : (e.1 == p) = true
      · rw [@List.find?_cons_of_pos _ (fun e => e.1 == p) e _ hp,
          @List.find?_cons_of_pos _ (fun e => e.1 == p) e _ hp]
      · rw [@List.find?_cons_of_neg _ (fun e => e.1 == p) e _ hp,
          @List.find?_cons_of_neg _ (fun e => e.1 == p) e _ hp]
        exact ih

/-- Looking up the key just inserted finds exactly the inserted binding. -/
theorem find?_insertPayload_self (m : List (String × String)) (key val : String) :
    (insertPayload m key val).find? (fun e => e.1 == key) = some (key, val) := by
  unfold insertPayload
  split
  · exact find?_replace_of_any m key val (by assumption)
  · rename_i hany
    rw [List.find?_append]
    have hf : m.any (fun e => e.1 == key) = false := by
      cases h : m.any (fun e => e.1 == key) with
      | false => rfl
      | true => exact absurd h hany
    have h1 : m.find? (fun e => e.1 == key) = none := by
      rw [List.find?_eq_none]
      intro x hx
      exact List.any_eq_false.mp hf x hx
    rw [h1, Option.none_or, List.find?_cons_of_pos _ (by simp)]

/-- Inserting under one key does not affect lookups of other keys. -/
theorem find?_insertPayload_other (m : List (String × String)) (key val p : String)
    (hne : (key == p) = false) :
    (insertPayload m key val).find? (fun e => e.1 == p) =
      m.find? (fun e => e.1 == p) := by
  unfold insertPayload
  split
  · exact find?_replace_other m key val p hne
  · rw [List.find?_append]
    cases hf : m.find? (fun e => e.1 == p) with
    | some e => rfl
    | none =>
      rw [Option.none_or, List.find?_cons_of_neg _ (by simp [hne]), List.find?_nil]

/-- Every requested path is bound, in the payload map, to the content value
the loop computes for it (text, error message or not-found marker). -/
theorem find?_get_contents_map (fs : ContentFs) (paths : List String) (p : String)
    (hp : p ∈ paths) :
    (get_contents_map fs paths).find? (fun e => e.1 == p) =
      some (p, contentValue fs p) := by
  suffices h : ∀ (ps : List String) (m : List (String × String)),
      (p ∈ ps ∨ m.find? (fun e => e.1 == p) = some (p, contentValue fs p)) →
      (ps.foldl (fun m path => insertPayload m path (contentValue fs path)) m).find?
        (fun e => e.1 == p) = some (p, contentValue fs p) by
    exact h paths [] (Or.inl hp)
  intro ps
  induction ps with
  | nil =>
    intro m hm
    rcases hm with h | h
    · simp at h
    · simpa using h
  | cons q rest ih =>
    intro m hm
    simp only [List.foldl_cons]
    apply ih
    by_cases hpq : (q == p) = true
    · right
      rw [beq_iff_eq] at hpq
      subst hpq
      exact find?_insertPayload_self m q (contentValue fs q)
    · rcases hm with h | h
      · rcases List.mem_cons.mp h with rfl | h'
        · simp at hpq
        · exact Or.inl h'
      · right
        rw [find?_insertPayload_other m q (contentValue fs q) p
          (by simpa using hpq)]
        exact h

/-- The key list after an insertion: unchanged when the key was present,
extended by the key otherwise. -/
theorem keys_insertPayload (m : List (String × String)) (key val : String) :
    (insertPayload m key val).map Prod.fst =
      if m.any (fun e => e.1 == key) then m.map Prod.fst
      else m.map Prod.fst ++ [key] := by
  unfold insertPayload
  split
  · rename_i h
    rw [List.map_map]
    apply List.map_congr_left
    intro e he
    by_cases hk : (e.1 == key) = true
    · simp only [Function.comp_apply, if_pos hk]
      exact (beq_iff_eq.mp hk).symm
    · simp only [Function.comp_apply, if_neg hk]
  · simp

/-- The payload map built by `get_contents` has pairwise-distinct keys, and
its key set is exactly the set of requested paths. -/
theorem keys_get_contents_map (fs : ContentFs) (paths : List String) :
    ((get_contents_map fs paths).map Prod.fst).Nodup ∧
    ∀ p, p ∈ (get_contents_map fs paths).map Prod.fst ↔ p ∈ paths := by
  suffices h : ∀ (ps : List String) (m : List (String × String)),
      (m.map Prod.fst).Nodup →
      ((ps.foldl (fun m path => insertPayload m path (contentValue fs path)) m).map
          Prod.fst).Nodup ∧
      ∀ p, p ∈ (ps.foldl (fun m path => insertPayload m path (contentValue fs path)) m).map
          Prod.fst ↔ p ∈ m.map Prod.fst ∨ p ∈ ps by
    have h2 := h paths [] (by simp)
    exact ⟨h2.1, fun p => by simpa using h2.2 p⟩
  intro ps
  induction ps with
  | nil =>
    intro m hm
    exact ⟨hm, fun p => by simp⟩
  | cons q rest ih =>
    intro m hm
    simp only [List.foldl_cons]
    have hkeys := keys_insertPayload m q (contentValue fs q)
    by_cases hany : m.any (fun e => e.1 == q) = true
    · rw [if_pos hany] at hkeys
      have h2 := ih (insertPayload m q (contentValue fs q)) (by rw [hkeys]; exact hm)
      refine ⟨h2.1, fun p => ?_⟩
      rw [h2.2 p, hkeys]
      constructor
      · rintro (h | h)
        · exact Or.inl h
        · exact Or.inr (List.mem_cons_of_mem q h)
      · rintro (h | h)
        · exact Or.inl h
        · rcases List.mem_cons.mp h with rfl | h'
          · left
            rcases List.any_eq_true.mp hany with ⟨e, he, hpe⟩
            exact List.mem_map.mpr ⟨e, he, beq_iff_eq.mp hpe⟩
          · exact Or.inr h'
    · rw [if_neg hany] at hkeys
      have hf : m.any (fun e => e.1 == q) = false := by
        cases hx : m.any (fun e => e.1 == q) with
        | false => rfl
        | true => exact absurd hx hany
      have hqnotin : q ∉ m.map Prod.fst := by
        intro hq
        rcases List.mem_map.mp hq with ⟨e, he, hqe⟩
        exact List.any_eq_false.mp hf e he (by rw [hqe]; simp)
      have hnodup2 : ((insertPayload m q (contentValue fs q)).map Prod.fst).Nodup := by
        rw [hkeys]
        rw [List.nodup_append]
        exact ⟨hm, List.nodup_singleton q, by simpa [List.disjoint_singleton] using hqnotin⟩
      have h2 := ih (insertPayload m q (contentValue fs q)) hnodup2
      refine ⟨h2.1, fun p => ?_⟩
      rw [h2.2 p, hkeys]
      simp only [List.mem_append, List.mem_singleton, List.mem_cons]
      tauto

/-- Claim C8: `get_contents` always succeeds with a textual payload mapping
each requested path to its text, an embedded per-path read-error message, or
the not-found marker; through the dispatcher a well-formed `get_contents`
call therefore always produces a success response, never an InternalError. -/
theorem c8_get_contents_never_internal_error {config : Config} {w : World}
    {request : McpRequest} {args : Json} {paths : List Json}
    (hm : request.method = "call_tool")
    (hname : (request.params.get? "name").bind Json.asStr? = some "get_contents")
    (hargs : request.params.get? "arguments" = some args)
    (hpaths : (args.get? "file_paths").bind Json.asArr? = some paths) :
    get_contents w.contentFs (paths.filterMap Json.asStr?) =
      .ok (renderContents (get_contents_map w.contentFs (paths.filterMap Json.asStr?))) ∧
    handle_request config w request =
      .ok { jsonrpc := "2.0", id := request.id,
            result := textContent
              (renderContents (get_contents_map w.contentFs (paths.filterMap Json.asStr?))) } ∧
    (∀ p ∈ paths.filterMap Json.asStr?,
      (get_contents_map w.contentFs (paths.filterMap Json.asStr?)).find?
        (fun e => e.1 == p) = some (p, contentValue w.contentFs p)) ∧
    (∀ p, w.contentFs.stateOf p = .absent →
      contentValue w.contentFs p = "File not found") ∧
    (∀ p e, w.contentFs.stateOf p = .unreadable e →
      contentValue w.contentFs p = "Error reading file: " ++ e) := by
  refine ⟨rfl, ?_, fun p hp => find?_get_contents_map w.contentFs _ p hp,
    fun p hp => by rw [contentValue, hp], fun p e hp => by rw [contentValue, hp]⟩
  unfold handle_request
  split
  · simp_all
  · split
    · simp_all
    · split
      · split
        · rename_i optArgs argsVal hargsEq optPaths pathsVal hpathsEq
          rw [hargsEq] at hargs
          injection hargs with hargs
          subst hargs
          rw [hpathsEq] at hpaths
          injection hpaths with hpaths
          subst hpaths
          rfl
        · simp_all
      · simp_all
    · simp_all
  · simp_all

/-- The dispatcher world for the content fixtures: one readable file, one
unreadable file; everything else is absent. -/
def wContent : World :=
  { searchFs := wFs,
    contentFs := [("notes/a.txt", .text "hello"), ("notes/b.txt", .unreadable "denied")] }

/-- Concrete instantiation of C8: requesting a readable, an unreadable and a
missing path yields a success response whose payload binds each path. -/
theorem c8_get_contents_never_internal_error_witness :
    get_contents wContent.contentFs
        (([Json.str "notes/a.txt", Json.str "notes/b.txt",
           Json.str "missing.txt"]).filterMap Json.asStr?) =
      .ok (renderContents (get_contents_map wContent.contentFs
        (([Json.str "notes/a.txt", Json.str "notes/b.txt",
           Json.str "missing.txt"]).filterMap Json.asStr?))) ∧
    handle_request wConfig wContent
      { jsonrpc := "2.0", id := .num 3, method := "call_tool",
        params := .obj [("name", .str "get_contents"),
                        ("arguments", .obj [("file_paths",
                          .arr [.str "notes/a.txt", .str "notes/b.txt",
                                .str "missing.txt"])])] } =
      .ok { jsonrpc := "2.0", id := .num 3,
            result := textContent (renderContents (get_contents_map wContent.contentFs
              (([Json.str "notes/a.txt", Json.str "notes/b.txt",
                 Json.str "missing.txt"]).filterMap Json.asStr?))) } ∧
    (∀ p ∈ ([Json.str "notes/a.txt", Json.str "notes/b.txt",
             Json.str "missing.txt"]).filterMap Json.asStr?,
      (get_contents_map wContent.contentFs
          (([Json.str "notes/a.txt", Json.str "notes/b.txt",
             Json.str "missing.txt"]).filterMap Json.asStr?)).find?
        (fun e => e.1 == p) = some (p, contentValue wContent.contentFs p)) ∧
    (∀ p, wContent.contentFs.stateOf p = .absent →
      contentValue wContent.contentFs p = "File not found") ∧
    (∀ p e, wContent.contentFs.stateOf p = .unreadable e →
      contentValue wContent.contentFs p = "Error reading file: " ++ e) :=
  @c8_get_contents_never_internal_error wConfig wContent
    { jsonrpc := "2.0", id := .num 3, method := "call_tool",
      params := .obj [("name", .str "get_contents"),
                      ("arguments", .obj [("file_paths",
                        .arr [.str "notes/a.txt", .str "notes/b.txt",
                              .str "missing.txt"])])] }
    (.obj [("file_paths", .arr [.str "notes/a.txt", .str "notes/b.txt",
                                .str "missing.txt"])])
    [.str "notes/a.txt", .str "notes/b.txt", .str "missing.txt"]
    rfl rfl rfl rfl

/-- Claim C9: the dispatcher never inspects the protocol version tag — two
requests differing only in their `jsonrpc` field get identical outcomes —
and every emitted envelope carries `jsonrpc = "2.0"`. -/
theorem c9_jsonrpc_tag_ignored (config : Config) (w : World)
    (request : McpRequest) (v : String) :
    handle_request config w { request with jsonrpc := v } =
      handle_request config w request ∧
    envelopeVersion (handle_request config w request) = "2.0" := by
  constructor
  · cases request
    rfl
  · exact handle_request_version config w request

/-- Claim C10: the `get_contents` payload is keyed by path: keys are
pairwise distinct, a path appears as a key exactly once however often it was
requested, the key set equals the set of requested paths, and the number of
entries is the number of distinct requested paths. -/
theorem c10_payload_unique_keys (fs : ContentFs) (paths : List String) :
    ((get_contents_map fs paths).map Prod.fst).Nodup ∧
    (∀ p, p ∈ (get_contents_map fs paths).map Prod.fst ↔ p ∈ paths) ∧
    (∀ p ∈ paths, ((get_contents_map fs paths).map Prod.fst).count p = 1) ∧
    (get_contents_map fs paths).length = paths.toFinset.card := by
  obtain ⟨hnodup, hmem⟩ := keys_get_contents_map fs paths
  refine ⟨hnodup, hmem,
    fun p hp => List.count_eq_one_of_mem hnodup ((hmem p).mpr hp), ?_⟩
  have h1 : (get_contents_map fs paths).length =
      ((get_contents_map fs paths).map Prod.fst).length := (List.length_map _ _).symm
  rw [h1, ← List.toFinset_card_of_nodup hnodup]
  congr 1
  ext p
  simp only [List.mem_toFinset]
  exact hmem p

/-- Concrete instantiation of C10: a doubled request path produces one entry
per distinct path. -/
theorem c10_payload_unique_keys_witness :
    ((get_contents_map wContent.contentFs
        ["notes/a.txt", "missing.txt", "notes/a.txt"]).map Prod.fst).Nodup ∧
    (∀ p, p ∈ (get_contents_map wContent.contentFs
        ["notes/a.txt", "missing.txt", "notes/a.txt"]).map Prod.fst ↔
      p ∈ ["notes/a.txt", "missing.txt", "notes/a.txt"]) ∧
    (∀ p ∈ ["notes/a.txt", "missing.txt", "notes/a.txt"],
      ((get_contents_map wContent.contentFs
          ["notes/a.txt", "missing.txt", "notes/a.txt"]).map Prod.fst).count p = 1) ∧
    (get_contents_map wContent.contentFs
        ["notes/a.txt", "missing.txt", "notes/a.txt"]).length =
      (["notes/a.txt", "missing.txt", "notes/a.txt"] : List String).toFinset.card :=
  c10_payload_unique_keys wContent.contentFs
    ["notes/a.txt", "missing.txt", "notes/a.txt"]

end Brain
